import Mathlib

/-!
# Verification of the json-ui score-explanation engine

A shallow embedding of the core transformation pipeline of this repository
(`src/index.js`): the explanation-tree flattener (`decomposeSKU` /
`traverseDetails`), the product/SKU aggregator (`decomposeSKU` / `setData`),
the score classifier (`addBoostClass`), the boost-name derivation
(`getBoostName`), the boost registry (`sidebarOption`), the formula
synthesizer (`scoreFormula` / `scoreFormulaFormat`) and the per-product
score statistics (`productScores`).

JavaScript values that may be `undefined` are modelled with `Option`;
numeric JSON values are modelled as `Int` (no claim below depends on
fractional score values); a thrown-and-propagated exception is modelled
with `Except`.
-/

namespace JsonUI

/-! ## Character-list string utilities

JavaScript string primitives (`String.prototype.includes`,
`String.prototype.split`, `String.prototype.replace` with a string
pattern, `Array.prototype.join`) are modelled over `List Char`, with
`String` wrappers.  Note that JS `replace` with a plain-string pattern
replaces only the FIRST occurrence. -/

/-- Split a character list at the first occurrence of `pat`, returning the
characters before the match and the characters after it; `none` when `pat`
does not occur.  An empty pattern matches immediately (as in JS
`indexOf`). -/
def splitFirst (pat : List Char) : List Char → Option (List Char × List Char)
  | [] => if pat = [] then some ([], []) else none
  | x :: rest =>
    if pat.isPrefixOf (x :: rest) then
      some ([], (x :: rest).drop pat.length)
    else
      match splitFirst pat rest with
      | none => none
      | some (pre, suf) => some (x :: pre, suf)

/-- JS `s.includes(pat)`. -/
def jsIncludesL (s pat : List Char) : Bool := (splitFirst pat s).isSome

/-- JS `s.replace(pat, rep)` with a string pattern: replaces only the first
occurrence, returns the string unchanged when the pattern is absent. -/
def replaceFirstL (s pat rep : List Char) : List Char :=
  match splitFirst pat s with
  | none => s
  | some (pre, suf) => pre ++ rep ++ suf

/-- JS `s.split(c)` for a single-character separator: the list of
segments between occurrences of `c` (never empty). -/
def splitOnChar (c : Char) : List Char → List (List Char)
  | [] => [[]]
  | x :: rest =>
    match splitOnChar c rest with
    | [] => [[]]
    | seg :: segs => if x = c then [] :: seg :: segs else (x :: seg) :: segs

/-- String wrapper for `jsIncludesL`. -/
def jsIncludes (s pat : String) : Bool := jsIncludesL s.data pat.data

/-- String wrapper for `replaceFirstL`. -/
def replaceFirst (s pat rep : String) : String :=
  ⟨replaceFirstL s.data pat.data rep.data⟩

/-- String wrapper for `splitOnChar`. -/
def jsSplit (c : Char) (s : String) : List String :=
  (splitOnChar c s.data).map (fun l => ⟨l⟩)

theorem splitOnChar_ne_nil (c : Char) (l : List Char) : splitOnChar c l ≠ [] := by
  cases l with
  | nil => simp [splitOnChar]
  | cons x rest =>
    simp only [splitOnChar]
    cases h : splitOnChar c rest with
    | nil => simp
    | cons seg segs =>
      by_cases hx : x = c <;> simp [hx]

theorem jsSplit_ne_nil (c : Char) (s : String) : jsSplit c s ≠ [] := by
  simp [jsSplit, splitOnChar_ne_nil]

/-- Splitting `pre ++ c :: suf` where `c` does not occur in `pre`:
the first segment is `pre` and the rest is the split of `suf`. -/
theorem splitOnChar_append_cons (c : Char) (pre suf : List Char)
    (h : c ∉ pre) : splitOnChar c (pre ++ c :: suf) = pre :: splitOnChar c suf := by
  induction pre with
  | nil =>
    simp only [List.nil_append, splitOnChar]
    cases hs : splitOnChar c suf with
    | nil => exact absurd hs (splitOnChar_ne_nil c suf)
    | cons seg segs => simp
  | cons x pre ih =>
    have hxc : x ≠ c := fun hx => h (by simp [hx])
    have hpre : c ∉ pre := fun hc => h (by simp [hc])
    simp only [List.cons_append, splitOnChar, List.append_eq]
    rw [ih hpre]
    simp [hxc]

/-- When the single-character separator does not occur in `l`, the split
is the one-element list `[l]`. -/
theorem splitOnChar_of_not_mem (c : Char) (l : List Char) (h : c ∉ l) :
    splitOnChar c l = [l] := by
  induction l with
  | nil => simp [splitOnChar]
  | cons x rest ih =>
    have hxc : x ≠ c := fun hx => h (by simp [hx])
    have hrest : c ∉ rest := fun hc => h (by simp [hc])
    simp [splitOnChar, ih hrest, hxc]

/-- A pattern that does not occur is not replaced. -/
theorem replaceFirstL_of_not_includes (s pat rep : List Char)
    (h : jsIncludesL s pat = false) : replaceFirstL s pat rep = s := by
  unfold replaceFirstL
  unfold jsIncludesL at h
  cases hs : splitFirst pat s with
  | none => rfl
  | some pr => rw [hs] at h; simp at h

theorem replaceFirst_of_not_includes (s pat rep : String)
    (h : jsIncludes s pat = false) : replaceFirst s pat rep = s := by
  unfold replaceFirst
  rw [replaceFirstL_of_not_includes s.data pat.data rep.data h]

/-! ## Data model

`JVal` models the JSON scalar stored in a node's `value` field (a number,
occasionally a string such as `"true"`); `jvalText` is its rendering when
assigned to a DOM element's `textContent` or interpolated into a template
literal. -/

inductive JVal where
  | num (n : Int)
  | str (s : String)
deriving DecidableEq, Repr

def jvalText : JVal → String
  | .num n => toString n
  | .str s => s

/-- Rendering of a possibly-`undefined` value: interpolating `undefined`
into a template literal or assigning it to `textContent` yields the string
`"undefined"`. -/
def optText (v : Option JVal) : String :=
  match v with
  | none => "undefined"
  | some j => jvalText j

/-- Rendering of a possibly-`undefined` description string. -/
def optDescText (d : Option String) : String :=
  match d with
  | none => "undefined"
  | some s => s

/-- An explanation node as received from the ranking engine
(`debug.explain` entries): a `description`, a `value`, and a `details`
array of child nodes.  A missing `details` key behaves exactly like an
empty array in `traverseDetails`, so both are modelled as `[]`; missing
`description`/`value` fields (malformed nodes) are modelled as `none`. -/
inductive ENode where
  | mk (description : Option String) (value : Option JVal) (details : List ENode)

def ENode.description : ENode → Option String
  | .mk d _ _ => d

def ENode.value : ENode → Option JVal
  | .mk _ v _ => v

def ENode.details : ENode → List ENode
  | .mk _ _ ds => ds

/-- One entry of the `allDetails[item]` array: `[depth, description,
value]` as pushed by `decomposeSKU` / `traverseDetails`
(src/index.js:228,287).  The pushed fields are the raw (possibly
`undefined`) node fields. -/
structure Rec where
  depth : Nat
  description : Option String
  value : Option JVal
deriving DecidableEq, Repr

/-! ## Explanation Tree Flattener (src/index.js:277-298, 226-229)

`traverseDetails(depth, prodId, item)` iterates the keys of `item`; the
only key that triggers any action is `details` (an object): for each
element of the `details` array it pushes `[depth+1, description, value]`
and recurses at `depth+1`.  The trailing call
`traverseDetails(depth, prodId, item["details"])` on the details ARRAY
itself is a no-op: the array's own keys are numeric indices, never the
string `details`, so that call pushes nothing — it is therefore omitted
from the embedding.  `travList` is the body of the `for` loop over the
`details` array. -/

mutual

/-- `traverseDetails(depth, prodId, item)` restricted to one node: only
the `details` key contributes. -/
def traverseDetails (depth : Nat) : ENode → List Rec
  | .mk _ _ cs => travList depth cs

/-- The `for` loop over a `details` array (src/index.js:286-290): push
the child's record at `depth+1`, then recurse into the child. -/
def travList (depth : Nat) : List ENode → List Rec
  | [] => []
  | c :: rest =>
    ⟨depth + 1, c.description, c.value⟩ ::
      (traverseDetails (depth + 1) c ++ travList depth rest)

end

/-- The full flattened sequence for one scored item as built by
`decomposeSKU` (src/index.js:226-229): the root record at depth 1
followed by the recursive traversal. -/
def decomposeDetails (root : ENode) : List Rec :=
  ⟨1, root.description, root.value⟩ :: traverseDetails 1 root

/-- Number of nodes of a forest. -/
def sizeL : List ENode → Nat
  | [] => 0
  | .mk _ _ cs :: rest => 1 + sizeL cs + sizeL rest

/-- Number of nodes of an explanation tree. -/
def ENode.size (n : ENode) : Nat := 1 + sizeL n.details

/-- Modelled from the spec: the canonical pre-order flattening of a forest
whose roots sit at depth `d` — each node's record precedes its children's
records, siblings keep source order, and a child's depth is its parent's
depth plus one.  Used as the specification-side reference for the
flattener. -/
def preorderL (d : Nat) : List ENode → List Rec
  | [] => []
  | .mk ds v cs :: rest =>
    ⟨d, ds, v⟩ :: (preorderL (d + 1) cs ++ preorderL d rest)

/-- Modelled from the spec: canonical pre-order flattening of a tree with
the root emitted at depth `d`. -/
def preorderFlatten (d : Nat) (n : ENode) : List Rec :=
  ⟨d, n.description, n.value⟩ :: preorderL (d + 1) n.details

theorem travList_eq_preorderL (d : Nat) (l : List ENode) :
    travList d l = preorderL (d + 1) l := by
  induction d, l using preorderL.induct with
  | case1 d => simp [travList, preorderL]
  | case2 d ds v cs rest ih1 ih2 =>
    simp [travList, traverseDetails, preorderL, ENode.description, ENode.value, ih1, ih2]

theorem preorderL_length (d : Nat) (l : List ENode) :
    (preorderL d l).length = sizeL l := by
  induction d, l using preorderL.induct with
  | case1 d => simp [preorderL, sizeL]
  | case2 d ds v cs rest ih1 ih2 =>
    simp [preorderL, sizeL, ih1, ih2]; omega

/-! ## Score-detail DOM tree (src/index.js:559-630)

`scoreList` replays the flattened record sequence of one item into a tree
of nested `<details>` elements: `createScoreDetail` builds a node holding
the record's depth (as class `indent-<depth>`), description and value;
`appendScoreDetail` attaches it.  `appendScoreDetail` starts from the
last `<details>` element in document order (the bottom of the rightmost
spine), walks up while the current node is deeper than `indentLevel - 1`,
and appends the new node as the last child of the first node of depth
`indentLevel - 1` it meets; walking past a root reaches the (detached)
container, whose class list yields depth `NaN`, so the walk dies and the
record is silently dropped.  The embedding `insertIntoTree` realises the
same search as "deepest node of the required depth on the rightmost
spine of the last root"; a record that finds no anchor is dropped. -/

inductive DTree where
  | mk (depth : Nat) (description : Option String) (value : Option JVal) (children : List DTree)

def DTree.depth : DTree → Nat
  | .mk d _ _ _ => d

def DTree.description : DTree → Option String
  | .mk _ ds _ _ => ds

def DTree.value : DTree → Option JVal
  | .mk _ _ v _ => v

def DTree.children : DTree → List DTree
  | .mk _ _ _ cs => cs

/-- `textContent` of a node's `p.detail-desc` element
(src/index.js:588-589). -/
def descTextD (t : DTree) : String := optDescText t.description

/-- `textContent` of a node's `p.detail-val` element
(src/index.js:591-592). -/
def valTextD (t : DTree) : String := optText t.value

/-- Split a list into its leading elements and its last element. -/
def lastSplit {α : Type} : List α → Option (List α × α)
  | [] => none
  | [c] => some ([], c)
  | c :: c2 :: rest =>
    match lastSplit (c2 :: rest) with
    | none => none
    | some (front, last) => some (c :: front, last)

mutual

/-- Append `drop` as last child of the deepest node of depth `p` on the
rightmost spine of `t` (the node the bottom-up walk of
`appendScoreDetail` stops at); `none` when no spine node has depth `p`. -/
def insertIntoTree : DTree → Nat → DTree → Option DTree
  | .mk d ds v cs, p, drop =>
    match insertIntoLast cs p drop with
    | some cs2 => some (.mk d ds v cs2)
    | none => if d = p then some (.mk d ds v (cs ++ [drop])) else none

/-- Try the insertion in the last element of a child list. -/
def insertIntoLast : List DTree → Nat → DTree → Option (List DTree)
  | [], _, _ => none
  | [c], p, drop =>
    match insertIntoTree c p drop with
    | some c2 => some [c2]
    | none => none
  | c :: c2 :: rest, p, drop =>
    match insertIntoLast (c2 :: rest) p drop with
    | some cs2 => some (c :: cs2)
    | none => none

end

/-- `appendScoreDetail(dropDownContainer, drop, scoreDetail)`
(src/index.js:609-630) acting on the forest of root `<details>` elements:
an empty container takes the node directly; otherwise the node is
anchored at depth `indentLevel - 1` on the rightmost spine of the last
root, or dropped.  The boolean reports whether the node was attached. -/
def appendScoreDetail (forest : List DTree) (sd : Rec) : List DTree × Bool :=
  let drop := DTree.mk sd.depth sd.description sd.value []
  match lastSplit forest with
  | none => (forest ++ [drop], true)
  | some (front, lastRoot) =>
    match insertIntoTree lastRoot (sd.depth - 1) drop with
    | some r => (front ++ [r], true)
    | none => (forest, false)

/-- The forest built by the `scoreList` loop (src/index.js:568-572) from
one item's flattened records. -/
def scoreListForest (recs : List Rec) : List DTree :=
  recs.foldl (fun f r => (appendScoreDetail f r).1) []

/-! ## Score Classifier (src/index.js:638-661)

`addBoostClass` inspects `scoreDetail[1]` (the raw, possibly `undefined`
description).  Exactly one branch runs; an unrecognized string receives
no score class, which the spec names the `plain` role.  When the
description is `undefined`, the first test (`=== "boost"`) is false and
the second (`description.includes(...)`) throws a `TypeError`, modelled
as `Except.error`. -/

inductive Role where
  | boost
  | idf
  | tf
  | weightAgg
  | maxAgg
  | queryConst
  | plain
deriving DecidableEq, Repr

/-- The classification performed by `addBoostClass`, as a function of the
raw description field.  `Except.error` models the `TypeError` thrown by
`description.includes` when the description is `undefined`. -/
def classifyRecord (description : Option String) : Except Unit Role :=
  if description = some "boost" then .ok .boost
  else
    match description with
    | none => .error ()
    | some d =>
      if jsIncludes d "idf, computed as" then .ok .idf
      else if jsIncludes d "tf, computed as" then .ok .tf
      else
        let baseDescription := ((jsSplit '(' d).headD "")
        if baseDescription = "weight" then .ok .weightAgg
        else if baseDescription = "max of:" then .ok .maxAgg
        else if baseDescription = "query" then .ok .queryConst
        else .ok .plain

/-- Modelled from the spec (§4.3): the ordered rule list, first match
wins, default `plain`. -/
def specRules : List ((String → Bool) × Role) :=
  [ (fun d => d = "boost", .boost),
    (fun d => jsIncludes d "idf, computed as", .idf),
    (fun d => jsIncludes d "tf, computed as", .tf),
    (fun d => (jsSplit '(' d).headD "" = "weight", .weightAgg),
    (fun d => (jsSplit '(' d).headD "" = "max of:", .maxAgg),
    (fun d => (jsSplit '(' d).headD "" = "query", .queryConst) ]

/-- Modelled from the spec (§4.3): apply an ordered rule list, first
match wins, defaulting to `plain`. -/
def firstMatch (rules : List ((String → Bool) × Role)) (d : String) : Role :=
  match rules with
  | [] => .plain
  | (p, r) :: rest => if p d then r else firstMatch rest d

/-- Modelled from the spec (§4.3): the classification described by the
specification's priority-ordered rules. -/
def specClassify (d : String) : Role := firstMatch specRules d

/-! ## Boost name and Boost Registry (src/index.js:638-646, 668-685, 1038-1062) -/

/-- `getBoostName(drop)` (src/index.js:668-685) as a function of the
`textContent` of the nearest `details.scoreweight` ancestor's description
element (`none` when there is no such ancestor).  The result `none`
models JS `undefined`, returned either when the ancestor is missing, or
when an intermediate `undefined` makes the body throw (the `try/catch`
swallows the error and the function returns `undefined`), or when the
final `split('_')[1]` has no second segment. -/
def getBoostNameStr (name : String) : Option String :=
  match (jsSplit ':' ((jsSplit ' ' name).headD "")).get? 1 with
  | none => none
  | some bn =>
    if bn.data.head? = some '"' then
      match (jsSplit '"' name).get? 1 with
      | none => none
      | some q => some (String.intercalate "-" (jsSplit ' ' q))
    else if bn = "true" then
      (jsSplit '_' ((jsSplit ':' name).headD "")).get? 1
    else some bn

/-- `getBoostName` on the possibly-missing ancestor. -/
def getBoostName : Option String → Option String
  | none => none
  | some name => getBoostNameStr name

/-- The class name registered for a boost record
(src/index.js:641-642): `` `${boostName}-boost-${scoreDetail[2]}` ``. -/
def boostClassOf (ancestorWeightDesc : Option String) (value : Option JVal) : String :=
  optDescText (getBoostName ancestorWeightDesc) ++ "-boost-" ++ optText value

/-- `sidebarOption(boost)` (src/index.js:1038-1062) restricted to its
effect on the checklist (the Boost Registry): add a checkbox for the
class name unless one already exists. -/
def sidebarOption (registry : List String) (boost : String) : List String :=
  if boost ∈ registry then registry else registry ++ [boost]

mutual

/-- The rightmost spine of a `<details>` tree: the path obtained by
repeatedly taking the last child, starting at the root.  The node last
attached by `appendScoreDetail` is the final element of the last root's
rightmost spine. -/
def rightSpine : DTree → List DTree
  | .mk d ds v cs => .mk d ds v cs :: rightSpineL cs

def rightSpineL : List DTree → List DTree
  | [] => []
  | [c] => rightSpine c
  | _ :: c2 :: rest => rightSpineL (c2 :: rest)

end

/-- `drop.closest('details.scoreweight')` for the node just attached by
`appendScoreDetail` (the bottom of the last root's rightmost spine),
returning the ancestor's description `textContent`: the deepest proper
ancestor carrying the `scoreweight` class, i.e. whose record was
classified `weight-aggregate`. -/
def nearestWeightAncestorDesc (forest : List DTree) : Option String :=
  match lastSplit forest with
  | none => none
  | some (_, lastRoot) =>
    ((rightSpine lastRoot).dropLast.reverse.find?
      (fun t =>
        match classifyRecord t.description with
        | Except.ok Role.weightAgg => true
        | _ => false)).map descTextD

/-! ## Formula Synthesizer (src/index.js:756-794)

`scoreFormula(list, type)` walks the direct `<details>` children of
`list` and builds a nested array of tokens; `scoreFormulaFormat` flattens
it, joins with spaces, and replaces the FIRST `"( + "` with `"("` and the
FIRST `" )"` with `")"` (JS `String.prototype.replace` with a string
pattern touches only the first occurrence). -/

inductive Fm where
  | tok (s : String)
  | sub (l : List Fm)

mutual

/-- The tokens one component `<details>` element contributes to the
formula array inside a parent walk joined by `type`
(src/index.js:761-778). -/
def scoreFormulaN : DTree → String → List Fm
  | .mk _ ds v cs, type =>
    let desc := optDescText ds
    let value := optText v
    if jsIncludes desc "product of" then
      [Fm.sub (scoreFormulaL cs "*")]
    else if jsIncludes desc "sum of" then
      [Fm.tok "(", Fm.sub (scoreFormulaL cs "+"), Fm.tok ")"]
    else if jsIncludes desc "weight" && decide (desc.length > 100) then
      [Fm.tok value, Fm.tok type, Fm.sub (scoreFormulaL cs "&")]
    else
      [Fm.tok type, Fm.tok value]

/-- The loop of `scoreFormula(list, type)` (src/index.js:756-780) over
the direct `<details>` children of `list`. -/
def scoreFormulaL : List DTree → String → List Fm
  | [], _ => []
  | c :: rest, type => scoreFormulaN c type ++ scoreFormulaL rest type

end

mutual

/-- `flat(Infinity)` of a single nested-array element. -/
def flattenOne : Fm → List String
  | .tok s => [s]
  | .sub l => flattenFm l

/-- `formula.flat(Infinity)` on the nested token array. -/
def flattenFm : List Fm → List String
  | [] => []
  | f :: rest => flattenOne f ++ flattenFm rest

end

/-- The parenthesis-normalization step of `scoreFormulaFormat`
(src/index.js:791-792): first occurrence of `"( + "` becomes `"("`,
then the first occurrence of `" )"` becomes `")"`. -/
def normalizeParens (s : String) : String :=
  replaceFirst (replaceFirst s "( + " "(") " )" ")"

/-- `scoreFormulaFormat(formula)` (src/index.js:788-794): flatten, join
with single spaces, normalize parentheses. -/
def scoreFormulaFormat (formula : List Fm) : String :=
  normalizeParens (String.intercalate " " (flattenFm formula))

/-- The formula string produced for one item by `scoreSummary`
(src/index.js:703-704): `scoreFormulaFormat(scoreFormula(list, ' = '))`
on the item's rebuilt score list. -/
def itemFormula (recs : List Rec) : String :=
  scoreFormulaFormat (scoreFormulaL (scoreListForest recs) " = ")

/-! ## Product/SKU Aggregator (src/index.js:197-266)

The documents of `response.docs` carry the fields read by `setData`;
`sku_skuImages[0]` on an empty array is `undefined` (modelled with
`List.head?`). -/

structure SkuEntry where
  sku_id : String
  sku_skuImages : List String
deriving DecidableEq, Repr

structure Doc where
  product_id : String
  product_displayName : String
  sku_size : String
  sku_skuImages : List String
  style_order_list : List SkuEntry
deriving DecidableEq, Repr

/-- The array returned by `setData` (src/index.js:243-266): display name,
size and product image always, plus the SKU image exactly when the
sku-level match succeeded (`skuImg = some _`). -/
structure SetDataRes where
  displayName : String
  size : String
  prodImg : Option String
  skuImg : Option (Option String)
deriving DecidableEq, Repr

/-- `setData(data, productId, skuId)`: scan the document list for the
first document whose `product_id` matches (`undefined` matches nothing),
then scan its `style_order_list` for the matching `sku_id`; `none` models
the implicit `undefined` return when no document matches. -/
def setData (docs : List Doc) (productId skuId : Option String) : Option SetDataRes :=
  match docs.find? (fun d => some d.product_id = productId) with
  | none => none
  | some d =>
    match d.style_order_list.find? (fun e => some e.sku_id = skuId) with
    | none => some ⟨d.product_displayName, d.sku_size, d.sku_skuImages.head?, none⟩
    | some e =>
      some ⟨d.product_displayName, d.sku_size, d.sku_skuImages.head?,
        some e.sku_skuImages.head?⟩

/-- One entry of a product's `skus` map (src/index.js:220-223). -/
structure SkuRec where
  skuScore : Option JVal
  skuImg : Option String
deriving DecidableEq, Repr

/-- One entry of the `allProducts` map (src/index.js:211-219). -/
structure Product where
  productId : String
  displayName : String
  size : String
  prodImg : Option String
  skus : List (String × SkuRec)
deriving DecidableEq, Repr

/-- JS-object lookup on an insertion-ordered association list. -/
def lookupKey {α : Type} (m : List (String × α)) (k : String) : Option α :=
  (m.find? (fun kv => kv.1 = k)).map Prod.snd

/-- JS-object key assignment: update in place when the key exists,
append otherwise (insertion order preserved). -/
def setKey {α : Type} (m : List (String × α)) (k : String) (v : α) : List (String × α) :=
  if m.any (fun kv => kv.1 = k) then
    m.map (fun kv => if kv.1 = k then (k, v) else kv)
  else m ++ [(k, v)]

/-- The input of `decomposeSKU`: the `debug.explain` object (item key →
explanation tree, keys in object order) and the `response.docs` list. -/
structure QueryData where
  explain : List (String × ENode)
  docs : List Doc

/-- src/index.js:211-223: create the Product entry for `prodId` when
absent, then assign its `skus[skuId]` from the score value and the
`setData` array. -/
def upsertProduct (prods : List (String × Product)) (prodId skuId : String)
    (arr : SetDataRes) (value : Option JVal) : List (String × Product) :=
  let base :=
    match lookupKey prods prodId with
    | some p => p
    | none => ⟨prodId, arr.displayName, arr.size, arr.prodImg, []⟩
  setKey prods prodId { base with skus := setKey base.skus skuId ⟨value, arr.skuImg.join⟩ }

/-- The first component of `item.split('_')` (the sku id of an item
key); `split` never returns an empty array, so this is always a
string. -/
def skuIdOf (item : String) : String := (jsSplit '_' item).headD ""

/-- The loop body of `decomposeSKU` (src/index.js:203-230) for one item
key.  `item.split('_')` destructures to `[skuId, prodId]`; an item key
without an underscore gives `prodId === undefined`, which `setData`
matches against no document, so the item is skipped exactly like an
unmatched product id (`if (!array) return`). -/
def decomposeStep (docs : List Doc)
    (st : List (String × Product) × List (String × List Rec))
    (entry : String × ENode) :
    List (String × Product) × List (String × List Rec) :=
  match (jsSplit '_' entry.1)[1]? with
  | none => st
  | some prodId =>
    match setData docs (some prodId) (some (skuIdOf entry.1)) with
    | none => st
    | some arr =>
      (upsertProduct st.1 prodId (skuIdOf entry.1) arr entry.2.value,
       setKey st.2 entry.1 (decomposeDetails entry.2))

/-- `decomposeSKU(data)` (src/index.js:197-231): rebuild `allProducts`
and `allDetails` from scratch (both are reassigned to `{}` at
src/index.js:200-201 before the loop). -/
def decomposeSKU (data : QueryData) :
    List (String × Product) × List (String × List Rec) :=
  data.explain.foldl (decomposeStep data.docs) ([], [])

/-! ## Score statistics (src/index.js:462-472) -/

/-- Numeric value of a digit run. -/
def digitsVal (l : List Char) : Nat :=
  l.foldl (fun acc c => acc * 10 + (c.toNat - '0'.toNat)) 0

/-- Modelled from the spec (§4.abstract JS builtin): the integer fragment
of JS `parseFloat` — skip leading spaces, optional sign, a non-empty run
of digits parsed as the value (a longer fractional/exponent suffix is
ignored); `none` models `NaN`.  No claim below depends on fractional
score values. -/
def parseFloatL (l : List Char) : Option Int :=
  let l2 := l.dropWhile (fun c => c = ' ')
  match l2 with
  | '-' :: rest =>
    let ds := rest.takeWhile Char.isDigit
    if ds = [] then none else some (-(digitsVal ds : Int))
  | '+' :: rest =>
    let ds := rest.takeWhile Char.isDigit
    if ds = [] then none else some (digitsVal ds : Int)
  | _ =>
    let ds := l2.takeWhile Char.isDigit
    if ds = [] then none else some (digitsVal ds : Int)

/-- `parseFloat(sku['skuScore'])`: `undefined` and non-numeric strings
give `NaN` (`none`); a numeric value parses to itself. -/
def parseFloatJ : Option JVal → Option Int
  | none => none
  | some (.num n) => some n
  | some (.str s) => parseFloatL s.data

/-- The loop body of `productScores` (src/index.js:466-470): a `NaN`
score fails the `current > maxScore` test and leaves the maximum
unchanged; the SKU count is always incremented. -/
def productScoresStep (acc : Nat × Int) (kv : String × SkuRec) : Nat × Int :=
  let current := parseFloatJ kv.2.skuScore
  let mx :=
    match current with
    | some c => if c > acc.2 then c else acc.2
    | none => acc.2
  (acc.1 + 1, mx)

/-- `productScores(product)` (src/index.js:462-472): one pass over
`Object.values(product)` counting SKUs and tracking the running maximum,
which starts at 0. -/
def productScores (skus : List (String × SkuRec)) : Nat × Int :=
  skus.foldl productScoresStep (0, 0)

/-! ## Per-query state cycle (src/index.js:197-202, 324-330)

`decomposeSKU` reassigns `allProducts` and `allDetails` to fresh objects
(src/index.js:200-201) before filling them; `buildInterface` clears the
`#scores` sidebar and the `#checklist` boost registry
(src/index.js:326-327) before re-populating them from the fresh maps. -/

structure AppState where
  allProducts : List (String × Product)
  allDetails : List (String × List Rec)
  registry : List String
deriving DecidableEq, Repr

/-- The `scoreList` loop (src/index.js:568-572) restricted to its effect
on the Boost Registry: each record is attached (`appendScoreDetail`) and
classified (`addBoostClass`); a boost record registers its class name; a
record with an `undefined` description makes `addBoostClass` throw, the
`try/catch` in `addCard` swallows the error, and the rest of that card's
records are never processed (already-registered entries persist). -/
def buildRegistryGo (reg : List String) (forest : List DTree) :
    List Rec → List String
  | [] => reg
  | r :: rest =>
    let step := appendScoreDetail forest r
    match r.description with
    | none => reg
    | some d =>
      if d = "boost" then
        let anc := if step.2 then nearestWeightAncestorDesc step.1 else none
        buildRegistryGo (sidebarOption reg (boostClassOf anc r.value)) step.1 rest
      else buildRegistryGo reg step.1 rest

/-- The Boost Registry built by one `buildInterface` pass
(src/index.js:324-360): for each product and each of its SKUs, `addCard`
runs `scoreList` on `allDetails[sku + '_' + productId]`; a missing
details entry iterates zero times. -/
def computeRegistry (prods : List (String × Product))
    (dets : List (String × List Rec)) : List String :=
  prods.foldl
    (fun reg pkv =>
      pkv.2.skus.foldl
        (fun reg2 skv =>
          match lookupKey dets (skv.1 ++ "_" ++ pkv.2.productId) with
          | none => reg2
          | some recs => buildRegistryGo reg2 [] recs)
        reg)
    []

/-- `decomposeSKU` as a state transition: the previous cycle's maps are
discarded wholesale (src/index.js:200-201); the registry is untouched at
this point. -/
def decomposeSKUState (s : AppState) (data : QueryData) : AppState :=
  let res := decomposeSKU data
  { allProducts := res.1, allDetails := res.2, registry := s.registry }

/-- `buildInterface` as a state transition: the checklist (Boost
Registry) is cleared (src/index.js:327) and rebuilt from the fresh
maps. -/
def buildInterfaceState (s : AppState) : AppState :=
  { s with registry := computeRegistry s.allProducts s.allDetails }

/-- One query/page-load cycle: `decomposeSKU` (from `queryData`) followed
by `buildInterface` (from `displayData`). -/
def queryCycle (s : AppState) (data : QueryData) : AppState :=
  buildInterfaceState (decomposeSKUState s data)

/-- The state before any query. -/
def initialState : AppState := ⟨[], [], []⟩

/-! ## Node-counting helpers for the flattener theorems -/

/-- Number of nodes of a forest satisfying a predicate on the raw
`description`/`value` fields. -/
def countNodesL (p : Option String → Option JVal → Bool) : List ENode → Nat
  | [] => 0
  | .mk ds v cs :: rest =>
    (if p ds v then 1 else 0) + countNodesL p cs + countNodesL p rest

/-- Number of nodes of a tree satisfying a predicate on the raw
`description`/`value` fields. -/
def ENode.countNodes (p : Option String → Option JVal → Bool) (n : ENode) : Nat :=
  (if p n.description n.value then 1 else 0) + countNodesL p n.details

theorem preorderL_countP (p : Option String → Option JVal → Bool)
    (d : Nat) (l : List ENode) :
    (preorderL d l).countP (fun r => p r.description r.value) = countNodesL p l := by
  induction d, l using preorderL.induct with
  | case1 d => simp [preorderL, countNodesL]
  | case2 d ds v cs rest ih1 ih2 =>
    simp only [preorderL, countNodesL, List.countP_cons, List.countP_append, ih1, ih2]
    by_cases h : p ds v <;> simp [h] <;> omega

/-! ## Theorems

The nested-list recursions above are compiled by well-founded recursion;
`unseal` restores definitional unfolding so that concrete scenarios can
be settled by `decide`/`rfl`. -/

unseal preorderL sizeL countNodesL

/-- C1: for every explanation tree, the flattened sequence built by
`decomposeSKU`/`traverseDetails` is exactly the canonical pre-order
listing with the root at depth 1 — one record per node, each node's
record before its children's, siblings in source order, child depth =
parent depth + 1 — and its length is the number of tree nodes. -/
theorem flatten_is_preorder_and_complete (n : ENode) :
    decomposeDetails n = preorderFlatten 1 n ∧
    (decomposeDetails n).length = n.size := by
  obtain ⟨ds, v, cs⟩ := n
  constructor
  · unfold decomposeDetails preorderFlatten traverseDetails
    simp [ENode.description, ENode.value, ENode.details, travList_eq_preorderL]
  · unfold decomposeDetails ENode.size traverseDetails
    simp [ENode.details, travList_eq_preorderL, preorderL_length]
    omega

/-- The scenario tree of C2:
`{description:"sum of:", value:10, children:[{description:"weight(field:x)",
value:6},{description:"weight(field:y)",value:4}]}`. -/
def c2Tree : ENode :=
  .mk (some "sum of:") (some (.num 10))
    [.mk (some "weight(field:x)") (some (.num 6)) [],
     .mk (some "weight(field:y)") (some (.num 4)) []]

/-- C2: the scenario tree flattens to exactly 3 records with depths
1, 2, 2 in that order, and the formula pipeline (recursive
`scoreFormula` walk, flatten, space-join, parenthesis normalization)
yields the string `"(6 + 4)"`. -/
theorem scenario_sum_of_two_weights :
    decomposeDetails c2Tree =
      [⟨1, some "sum of:", some (.num 10)⟩,
       ⟨2, some "weight(field:x)", some (.num 6)⟩,
       ⟨2, some "weight(field:y)", some (.num 4)⟩] ∧
    (decomposeDetails c2Tree).map Rec.depth = [1, 2, 2] ∧
    itemFormula (decomposeDetails c2Tree) = "(6 + 4)" := by
  refine ⟨by decide, by decide, by decide⟩

/-- A tree whose middle child is malformed (missing `description`). -/
def c4Tree : ENode :=
  .mk (some "sum of:") (some (.num 9))
    [.mk none (some (.num 5)) [],
     .mk (some "weight(f)") (some (.num 4)) []]

/-- C4 counterexample: on a tree with a node missing its `description`,
the flattener does NOT skip the malformed node — it emits a record for
it (with the missing field `undefined`), so the output has 3 records,
not the 2 the claim predicts for the 2 well-formed nodes. -/
theorem flattener_does_not_skip_malformed :
    decomposeDetails c4Tree =
      [⟨1, some "sum of:", some (.num 9)⟩,
       ⟨2, none, some (.num 5)⟩,
       ⟨2, some "weight(f)", some (.num 4)⟩] ∧
    (decomposeDetails c4Tree).countP (fun r => r.description.isNone) = 1 ∧
    (decomposeDetails c4Tree).length ≠ 2 := by
  refine ⟨by decide, by decide, by decide⟩

/-- C4 amended: the flattener neither aborts nor skips on malformed
nodes — it emits a record for every node, malformed ones included, with
the missing field left `undefined`: the output length equals the node
count, and the records missing a `description` (resp. `value`)
correspond exactly to the nodes missing that field. -/
theorem flattener_emits_all_nodes (t : ENode) :
    (decomposeDetails t).length = t.size ∧
    (decomposeDetails t).countP (fun r => r.description.isNone) =
      t.countNodes (fun ds _ => ds.isNone) ∧
    (decomposeDetails t).countP (fun r => r.value.isNone) =
      t.countNodes (fun _ v => v.isNone) := by
  obtain ⟨ds, v, cs⟩ := t
  refine ⟨?_, ?_, ?_⟩
  · unfold decomposeDetails ENode.size traverseDetails
    simp [ENode.details, travList_eq_preorderL, preorderL_length]
    omega
  · unfold decomposeDetails ENode.countNodes traverseDetails
    rw [List.countP_cons]
    simp only [ENode.description, ENode.value, ENode.details, travList_eq_preorderL,
      preorderL_countP (fun ds _ => ds.isNone)]
    by_cases h : ds.isNone <;> simp [h] <;> omega
  · unfold decomposeDetails ENode.countNodes traverseDetails
    rw [List.countP_cons]
    simp only [ENode.description, ENode.value, ENode.details, travList_eq_preorderL,
      preorderL_countP (fun _ v => v.isNone)]
    by_cases h : v.isNone <;> simp [h] <;> omega

/-- A tree whose only child is missing its `description` field. -/
def c3Tree : ENode :=
  .mk (some "max of:") (some (.num 7)) [.mk none (some (.num 7)) []]

/-- C3 counterexample: the flattener emits records with an `undefined`
description (second record of `c3Tree`), and on such a record the
classifier does NOT default to `plain` — `description.includes(...)`
throws a `TypeError`, so classification is not total over flattened
records and can throw. -/
theorem classifier_throws_on_undefined_description :
    (decomposeDetails c3Tree).get? 1 = some ⟨2, none, some (.num 7)⟩ ∧
    classifyRecord none = Except.error () := by
  refine ⟨by decide, rfl⟩

/-- C3 amended: for every flattened record whose `description` field is
present (a string), the classifier assigns exactly one role from the
closed set, equal to the spec's priority-ordered first-match rules with
default `plain`, and never throws; a record with a missing `description`
instead makes classification throw a `TypeError`. -/
theorem classifier_total_on_present_descriptions (d : String) :
    classifyRecord (some d) = Except.ok (specClassify d) := by
  unfold classifyRecord
  simp only [specClassify, specRules, firstMatch]
  split_ifs <;> simp_all

/-- The C6 counterexample token sequence (a nested sum, as produced by
`scoreFormula` on a sum-of-sums explanation). -/
def c6Toks : List Fm :=
  [.tok "(", .tok "+", .tok "(", .tok "+", .tok "1", .tok ")", .tok ")"]

/-- C6 counterexample: `String.prototype.replace` with a string pattern
rewrites only the first occurrence, so on the token sequence
`( + ( + 1 ) )` one normalization pass yields `"(( + 1) )"` while a
second pass yields `"((1))"` — applying the step twice does not equal
applying it once. -/
theorem normalization_not_idempotent :
    normalizeParens (normalizeParens (String.intercalate " " (flattenFm c6Toks))) ≠
      normalizeParens (String.intercalate " " (flattenFm c6Toks)) := by
  decide

/-- C6 amended: the normalization step replaces only the first occurrence
of each pattern, so it is idempotent exactly on those token sequences
whose once-normalized join contains no further occurrence of `"( + "`
or `" )"`; on such sequences a second application is the identity. -/
theorem normalization_idempotent_without_residue (toks : List Fm)
    (h1 : jsIncludes (normalizeParens (String.intercalate " " (flattenFm toks))) "( + " = false)
    (h2 : jsIncludes (normalizeParens (String.intercalate " " (flattenFm toks))) " )" = false) :
    normalizeParens (normalizeParens (String.intercalate " " (flattenFm toks))) =
      normalizeParens (String.intercalate " " (flattenFm toks)) := by
  set s1 := normalizeParens (String.intercalate " " (flattenFm toks)) with hs1
  show replaceFirst (replaceFirst s1 "( + " "(") " )" ")" = s1
  rw [replaceFirst_of_not_includes _ _ _ h1, replaceFirst_of_not_includes _ _ _ h2]

/-- Witness for C6 amended: the single-sum sequence `( + 6 + 4 )`
normalizes to `"(6 + 4)"`, which contains neither pattern, and a second
application leaves it unchanged. -/
theorem normalization_idempotent_witness :
    normalizeParens (normalizeParens (String.intercalate " "
      (flattenFm [Fm.tok "(", Fm.tok "+", Fm.tok "6", Fm.tok "+", Fm.tok "4", Fm.tok ")"]))) =
      normalizeParens (String.intercalate " "
        (flattenFm [Fm.tok "(", Fm.tok "+", Fm.tok "6", Fm.tok "+", Fm.tok "4", Fm.tok ")"])) :=
  normalization_idempotent_without_residue
    [Fm.tok "(", Fm.tok "+", Fm.tok "6", Fm.tok "+", Fm.tok "4", Fm.tok ")"]
    (by decide) (by decide)

/-- C7 counterexample: a boost record with value `"true"` whose nearest
weight-aggregate ancestor's description CONTAINS `"field_color:"` does
not always get boost name `"color"`: for the description
`"weight(field_color:red in 3)"` the derived name is `"red"` and the
registry gains `"red-boost-true"`, not `"color-boost-true"`. -/
theorem boost_name_field_color_not_always_color :
    jsIncludes "weight(field_color:red in 3)" "field_color:" = true ∧
    getBoostName (some "weight(field_color:red in 3)") = some "red" ∧
    sidebarOption []
        (boostClassOf (some "weight(field_color:red in 3)") (some (.str "true"))) =
      ["red-boost-true"] ∧
    "color-boost-true" ∉
      sidebarOption []
        (boostClassOf (some "weight(field_color:red in 3)") (some (.str "true"))) := by
  refine ⟨by decide, by decide, by decide, by decide⟩

/-- C7 amended: for a boost record with value `"true"` whose nearest
weight-aggregate ancestor's description starts with the space-delimited
token `weight(field_color:true` (the colon is followed by the literal
`true`, the boolean-flag form), the derived boost name is `"color"` and
the Boost Registry gains the entry `"color-boost-true"`. -/
theorem boost_true_field_color_gives_color (rest : String) (reg : List String) :
    getBoostName (some ("weight(field_color:true " ++ rest)) = some "color" ∧
    "color-boost-true" ∈ sidebarOption reg
      (boostClassOf (some ("weight(field_color:true " ++ rest)) (some (.str "true"))) := by
  have hsplit1 : (jsSplit ' ' ("weight(field_color:true " ++ rest)).headD "" =
      "weight(field_color:true" := by
    unfold jsSplit
    have hdata : ("weight(field_color:true " ++ rest).data =
        "weight(field_color:true".data ++ ' ' :: rest.data := rfl
    rw [hdata, splitOnChar_append_cons _ _ _ (by decide)]
    rfl
  have hsplit2 : (jsSplit ':' ("weight(field_color:true " ++ rest)).headD "" =
      "weight(field_color" := by
    unfold jsSplit
    have hdata : ("weight(field_color:true " ++ rest).data =
        "weight(field_color".data ++ ':' :: ("true ".data ++ rest.data) := rfl
    rw [hdata, splitOnChar_append_cons _ _ _ (by decide)]
    rfl
  have hname : getBoostName (some ("weight(field_color:true " ++ rest)) = some "color" := by
    show getBoostNameStr ("weight(field_color:true " ++ rest) = some "color"
    unfold getBoostNameStr
    rw [hsplit1]
    have hbn : (jsSplit ':' ("weight(field_color:true" : String)).get? 1 = some "true" := by
      decide
    rw [hbn]
    show (jsSplit '_' ((jsSplit ':' ("weight(field_color:true " ++ rest)).headD "")).get? 1 =
      some "color"
    rw [hsplit2]
    decide
  refine ⟨hname, ?_⟩
  have hclass : boostClassOf (some ("weight(field_color:true " ++ rest))
      (some (.str "true")) = "color-boost-true" := by
    unfold boostClassOf
    rw [hname]
    rfl
  rw [hclass]
  unfold sidebarOption
  split_ifs with h
  · exact h
  · simp

/-! ## Association-list and aggregator lemmas -/

theorem find_map_setfun {α : Type} (m : List (String × α)) (k k2 : String) (v : α)
    (h : k2 ≠ k) :
    (m.map (fun kv => if kv.1 = k then (k, v) else kv)).find?
        (fun kv => kv.1 = k2) =
      m.find? (fun kv => kv.1 = k2) := by
  induction m with
  | nil => rfl
  | cons kv rest ih =>
    simp only [List.map_cons, List.find?_cons]
    by_cases hk : kv.1 = k
    · simp [hk, Ne.symm h, ih]
    · by_cases hk2 : kv.1 = k2
      · simp [hk, hk2, h]
      · simp [hk, hk2, ih]

theorem lookupKey_setKey_ne {α : Type} (m : List (String × α)) (k k2 : String) (v : α)
    (h : k2 ≠ k) : lookupKey (setKey m k v) k2 = lookupKey m k2 := by
  unfold setKey
  split_ifs with hmem
  · unfold lookupKey
    rw [find_map_setfun m k k2 v h]
  · unfold lookupKey
    rw [List.find?_append]
    have h2 : List.find? (fun kv => kv.1 = k2) [(k, v)] = none := by
      simp [Ne.symm h]
    rw [h2]
    simp

theorem setKey_fst {α : Type} (m : List (String × α)) (k : String) (v : α) :
    (setKey m k v).map Prod.fst =
      if k ∈ m.map Prod.fst then m.map Prod.fst else m.map Prod.fst ++ [k] := by
  unfold setKey
  by_cases hmem : k ∈ m.map Prod.fst
  · obtain ⟨kv, hkv, hfst⟩ := List.mem_map.mp hmem
    have hany : (m.any fun kv => kv.1 = k) = true := by
      simp only [List.any_eq_true]
      exact ⟨kv, hkv, by simp [hfst]⟩
    simp only [hany, if_true, hmem, if_pos]
    rw [List.map_map]
    apply List.map_congr_left
    intro a _
    by_cases ha : a.1 = k <;> simp [ha]
  · have hany : (m.any fun kv => kv.1 = k) = false := by
      rw [List.any_eq_false]
      intro a ha
      simp only [decide_eq_true_eq]
      intro hak
      exact hmem (List.mem_map.mpr ⟨a, ha, hak⟩)
    simp [hany, hmem]

theorem setData_some_doc (docs : List Doc) (pid sk : Option String) (res : SetDataRes)
    (h : setData docs pid sk = some res) : ∃ d ∈ docs, some d.product_id = pid := by
  unfold setData at h
  cases hf : docs.find? (fun d => some d.product_id = pid) with
  | none => rw [hf] at h; exact absurd h (by simp)
  | some d =>
    refine ⟨d, List.mem_of_find?_eq_some hf, ?_⟩
    have := List.find?_some hf
    simpa using this

theorem setData_none_of_unmatched (docs : List Doc) (pid : String) (sk : Option String)
    (h : ∀ d ∈ docs, d.product_id ≠ pid) : setData docs (some pid) sk = none := by
  unfold setData
  have hf : docs.find? (fun d => some d.product_id = some pid) = none := by
    rw [List.find?_eq_none]
    intro d hd
    simp [h d hd]
  rw [hf]

/-- `upsertProduct` is a single JS-object key assignment at `prodId`. -/
theorem upsertProduct_eq_setKey (prods : List (String × Product))
    (prodId skuId : String) (arr : SetDataRes) (value : Option JVal) :
    ∃ p, upsertProduct prods prodId skuId arr value = setKey prods prodId p :=
  ⟨_, rfl⟩

theorem decomposeSKU_fold_lookup_none (docs : List Doc) (l : List (String × ENode))
    (st : List (String × Product) × List (String × List Rec)) (pid : String)
    (h0 : lookupKey st.1 pid = none)
    (hnomatch : ∀ d ∈ docs, d.product_id ≠ pid) :
    lookupKey (l.foldl (decomposeStep docs) st).1 pid = none := by
  induction l generalizing st with
  | nil => simpa using h0
  | cons e rest ih =>
    simp only [List.foldl_cons]
    apply ih
    cases hq : (jsSplit '_' e.1)[1]? with
    | none => simpa [decomposeStep, hq] using h0
    | some prodId =>
      cases hs : setData docs (some prodId) (some (skuIdOf e.1)) with
      | none => simpa [decomposeStep, hq, hs] using h0
      | some arr =>
        obtain ⟨d, hd, hdp⟩ := setData_some_doc docs _ _ _ hs
        have hne : pid ≠ prodId := by
          intro hEq
          exact hnomatch d hd (by simpa [hEq] using hdp)
        simp only [decomposeStep, hq, hs]
        obtain ⟨p, hp⟩ := upsertProduct_eq_setKey st.1 prodId (skuIdOf e.1) arr e.2.value
        rw [hp, lookupKey_setKey_ne _ _ _ _ hne]
        exact h0

/-- C5: an item key whose product id matches no document produces no
Product entry and leaves the aggregation of every other item unchanged
(the whole pass is total — no exception is modelled because none can be
raised on this path). -/
theorem unmatched_item_skipped (docs : List Doc) (pre post : List (String × ENode))
    (k : String) (node : ENode) (pid : String)
    (hpid : (jsSplit '_' k)[1]? = some pid)
    (hnomatch : ∀ d ∈ docs, d.product_id ≠ pid) :
    lookupKey (decomposeSKU ⟨pre ++ (k, node) :: post, docs⟩).1 pid = none ∧
    decomposeSKU ⟨pre ++ (k, node) :: post, docs⟩ = decomposeSKU ⟨pre ++ post, docs⟩ := by
  have hstep : ∀ st, decomposeStep docs st (k, node) = st := by
    intro st
    simp only [decomposeStep, hpid]
    rw [setData_none_of_unmatched docs pid _ hnomatch]
  constructor
  · unfold decomposeSKU
    exact decomposeSKU_fold_lookup_none docs _ ([], []) pid rfl hnomatch
  · unfold decomposeSKU
    simp only [List.foldl_append, List.foldl_cons]
    rw [hstep]

def w5Doc : Doc := ⟨"P2", "Pants", "M", ["img2"], [⟨"B1", ["imgB"]⟩]⟩

def w5Node : ENode := .mk (some "sum of:") (some (.num 3)) []

/-- Witness for C5: with one document for product `P2`, the item key
`"A1_P1"` (product id `P1`, matched by no document) yields no `P1` entry
and does not disturb the aggregation of the remaining item
`"B1_P2"`. -/
theorem unmatched_item_skipped_witness :
    lookupKey (decomposeSKU ⟨[("A1_P1", w5Node), ("B1_P2", w5Node)], [w5Doc]⟩).1 "P1" = none ∧
    decomposeSKU ⟨[("A1_P1", w5Node), ("B1_P2", w5Node)], [w5Doc]⟩ =
      decomposeSKU ⟨[("B1_P2", w5Node)], [w5Doc]⟩ := by
  have h := unmatched_item_skipped [w5Doc] [] [("B1_P2", w5Node)] "A1_P1" w5Node "P1"
    (by decide) (by decide)
  simpa using h

/-- A document list with one product id `P1`. -/
def c8Doc : Doc := ⟨"P1", "name", "size", [], []⟩

/-- C8 counterexample: a document list with 1 distinct product id whose
product is referenced by no scored item key yields a Product map with 0
entries, not "exactly" 1. -/
theorem product_map_not_exactly_n :
    (decomposeSKU ⟨[], [c8Doc]⟩).1.length = 0 ∧
    ([c8Doc].map Doc.product_id).dedup.length = 1 := by
  refine ⟨rfl, by decide⟩

theorem decomposeSKU_fold_keys (docs : List Doc) (l : List (String × ENode))
    (st : List (String × Product) × List (String × List Rec))
    (h1 : (st.1.map Prod.fst).Nodup)
    (h2 : ∀ k ∈ st.1.map Prod.fst, ∃ d ∈ docs, d.product_id = k) :
    ((l.foldl (decomposeStep docs) st).1.map Prod.fst).Nodup ∧
    ∀ k ∈ (l.foldl (decomposeStep docs) st).1.map Prod.fst, ∃ d ∈ docs, d.product_id = k := by
  induction l generalizing st with
  | nil => exact ⟨h1, h2⟩
  | cons e rest ih =>
    simp only [List.foldl_cons]
    apply ih
    case h1 =>
      cases hq : (jsSplit '_' e.1)[1]? with
      | none => simpa [decomposeStep, hq] using h1
      | some prodId =>
        cases hs : setData docs (some prodId) (some (skuIdOf e.1)) with
        | none => simpa [decomposeStep, hq, hs] using h1
        | some arr =>
          simp only [decomposeStep, hq, hs]
          obtain ⟨p, hp⟩ :=
            upsertProduct_eq_setKey st.1 prodId (skuIdOf e.1) arr e.2.value
          rw [hp, setKey_fst]
          split_ifs with hmem
          · exact h1
          · simp [List.nodup_append, h1, hmem]
    case h2 =>
      cases hq : (jsSplit '_' e.1)[1]? with
      | none => simpa [decomposeStep, hq] using h2
      | some prodId =>
        cases hs : setData docs (some prodId) (some (skuIdOf e.1)) with
        | none => simpa [decomposeStep, hq, hs] using h2
        | some arr =>
          simp only [decomposeStep, hq, hs]
          obtain ⟨p, hp⟩ :=
            upsertProduct_eq_setKey st.1 prodId (skuIdOf e.1) arr e.2.value
          rw [hp, setKey_fst]
          split_ifs with hmem
          · exact h2
          · intro k hk
            rcases List.mem_append.mp hk with hk2 | hk2
            · exact h2 k hk2
            · obtain ⟨d, hd, hdp⟩ := setData_some_doc docs _ _ _ hs
              have hkp : k = prodId := by simpa using hk2
              exact ⟨d, hd, by simpa [hkp] using hdp⟩

/-- C8 amended: one aggregation pass produces a Product map whose keys
are pairwise-distinct product ids each matching some document — each
distinct product id yields AT MOST one Product entry regardless of how
many scored item keys reference it — so the map has at most N entries
for a document list with N distinct product ids (it can have fewer when
some product is referenced by no scored item key). -/
theorem product_map_keys_nodup_at_most_n (data : QueryData) :
    ((decomposeSKU data).1.map Prod.fst).Nodup ∧
    (decomposeSKU data).1.length ≤ (data.docs.map Doc.product_id).dedup.length := by
  have h := decomposeSKU_fold_keys data.docs data.explain ([], []) (by simp) (by simp)
  have hmain : decomposeSKU data = data.explain.foldl (decomposeStep data.docs) ([], []) := rfl
  rw [hmain]
  refine ⟨h.1, ?_⟩
  have hsub : ∀ x ∈ (data.explain.foldl (decomposeStep data.docs) ([], [])).1.map Prod.fst,
      x ∈ data.docs.map Doc.product_id := by
    intro x hx
    obtain ⟨d, hd, hdp⟩ := h.2 x hx
    exact List.mem_map.mpr ⟨d, hd, hdp⟩
  calc (data.explain.foldl (decomposeStep data.docs) ([], [])).1.length
      = ((data.explain.foldl (decomposeStep data.docs) ([], [])).1.map Prod.fst).length := by
        rw [List.length_map]
    _ = ((data.explain.foldl (decomposeStep data.docs) ([], [])).1.map Prod.fst).toFinset.card := by
        rw [List.toFinset_card_of_nodup h.1]
    _ ≤ (data.docs.map Doc.product_id).toFinset.card := by
        apply Finset.card_le_card
        intro x hx
        rw [List.mem_toFinset] at hx ⊢
        exact hsub x hx
    _ = (data.docs.map Doc.product_id).dedup.length := List.card_toFinset _

/-- C9: a re-invocation with a new query rebuilds everything from
scratch — `decomposeSKU` reassigns the Product map and ScoreRecord store
to fresh objects (src/index.js:200-201) and `buildInterface` clears the
Boost Registry checklist (src/index.js:327) — so the state after a query
cycle is independent of any previous state and contains only entries
computed from the new query's data. -/
theorem query_cycle_rebuilds_from_scratch (s : AppState) (data : QueryData) :
    queryCycle s data = queryCycle initialState data ∧
    (queryCycle s data).allProducts = (decomposeSKU data).1 ∧
    (queryCycle s data).allDetails = (decomposeSKU data).2 ∧
    (queryCycle s data).registry =
      computeRegistry (decomposeSKU data).1 (decomposeSKU data).2 := by
  refine ⟨rfl, rfl, rfl, rfl⟩

theorem productScores_fold (skus : List (String × SkuRec)) (cnt : Nat) (mx : Int)
    (hmx : 0 ≤ mx) :
    0 ≤ (skus.foldl productScoresStep (cnt, mx)).2 ∧
    (skus.foldl productScoresStep (cnt, mx)).1 = cnt + skus.length ∧
    ((∀ kv ∈ skus, ∀ c : Int, parseFloatJ kv.2.skuScore = some c → c < 0) →
      (skus.foldl productScoresStep (cnt, mx)).2 = mx) := by
  induction skus generalizing cnt mx with
  | nil => exact ⟨hmx, by simp, fun _ => rfl⟩
  | cons kv rest ih =>
    simp only [List.foldl_cons]
    cases hp : parseFloatJ kv.2.skuScore with
    | none =>
      have hstep : productScoresStep (cnt, mx) kv = (cnt + 1, mx) := by
        unfold productScoresStep
        rw [hp]
      rw [hstep]
      obtain ⟨a1, a2, a3⟩ := ih (cnt + 1) mx hmx
      refine ⟨a1, by simpa using by omega, fun hneg => a3 (fun kv2 h2 => hneg kv2 (by simp [h2]))⟩
    | some c =>
      by_cases hc : c > mx
      · have hstep : productScoresStep (cnt, mx) kv = (cnt + 1, c) := by
          unfold productScoresStep
          rw [hp]
          simp [hc]
        rw [hstep]
        have hc0 : 0 ≤ c := le_trans hmx (le_of_lt hc)
        obtain ⟨a1, a2, a3⟩ := ih (cnt + 1) c hc0
        refine ⟨a1, by simpa using by omega, fun hneg => ?_⟩
        exfalso
        have := hneg kv (by simp) c hp
        omega
      · have hstep : productScoresStep (cnt, mx) kv = (cnt + 1, mx) := by
          unfold productScoresStep
          rw [hp]
          simp [hc]
        rw [hstep]
        obtain ⟨a1, a2, a3⟩ := ih (cnt + 1) mx hmx
        refine ⟨a1, by simpa using by omega, fun hneg => a3 (fun kv2 h2 => hneg kv2 (by simp [h2]))⟩

/-- C10: for every product, the reported maximum is never negative
(the running maximum starts at 0); when every SKU score parses to a
negative number or fails to parse (`NaN`), the reported maximum is 0
rather than the true maximum; and the SKU count always equals the number
of entries in the sku map. -/
theorem product_scores_max_clamped_at_zero (skus : List (String × SkuRec)) :
    0 ≤ (productScores skus).2 ∧
    (productScores skus).1 = skus.length ∧
    ((∀ kv ∈ skus, ∀ c : Int, parseFloatJ kv.2.skuScore = some c → c < 0) →
      (productScores skus).2 = 0) := by
  unfold productScores
  have h := productScores_fold skus 0 0 le_rfl
  simpa using h

/-- Witness for C10: two SKUs, one scoring `"-3"` (negative) and one with
a missing score (`NaN`): the reported maximum is 0 and the count is 2. -/
theorem product_scores_witness :
    (productScores [("s1", ⟨some (.str "-3"), none⟩), ("s2", ⟨none, none⟩)]).2 = 0 ∧
    (productScores [("s1", ⟨some (.str "-3"), none⟩), ("s2", ⟨none, none⟩)]).1 = 2 := by
  have h := product_scores_max_clamped_at_zero
    [("s1", ⟨some (.str "-3"), none⟩), ("s2", ⟨none, none⟩)]
  refine ⟨h.2.2 ?_, h.2.1⟩
  intro kv hkv c hc
  rcases List.mem_cons.mp hkv with h1 | h1
  · subst h1
    have hv : parseFloatJ (some (JVal.str "-3")) = some (-3) := by decide
    rw [hv] at hc
    injection hc with hc2
    omega
  · have h2 : kv = ("s2", (⟨none, none⟩ : SkuRec)) := by simpa using h1
    subst h2
    simp [parseFloatJ] at hc

end JsonUI
